import Mathlib

/-!
# Verification of the spin-to-win probability engine

Shallow embedding of `src/contract/programs/contract/src/probability.rs` and the
instruction handlers of `src/contract/programs/contract/src/lib.rs`.

Modelling conventions:

* Rust `u32`/`u64` arithmetic is modelled on `ℕ` with explicit wrapping
  (`% 2^32`), saturation (`min (2^32 - 1)`) and saturating subtraction
  (`ℕ` subtraction), matching release-mode Rust as compiled for the chain.
* The `f64` intermediate computations of `probability.rs` are modelled as exact
  rational arithmetic: every `f64` value is a rational number, and the
  divisions, multiplications and roundings the source performs are carried out
  exactly in `ℚ`.  `f64::round` rounds half away from zero and is immediately
  followed by an `as u32` cast (which clamps to `[0, 2^32-1]`); the composite
  is modelled by `castU32 ∘ rustRound` below, which agrees with the Rust
  composite on every rational input.
* The per-item weight `1.0 / tickets_needed.powf(1.5).max(f64::MIN_POSITIVE)`
  of `calculate_weights_advanced` involves the transcendental `powf`, which has
  no exact rational counterpart.  The embedding therefore takes the list of
  item weights as the input of the normalization pipeline (every `f64` weight
  the source can produce is a positive rational), and records the facts the
  weight formula guarantees — positivity, and strict antitonicity in the item
  value for a fixed ticket price — as hypotheses of the theorems that need
  them.  For items representable in `u64`, the computed weight always lies far
  above `f64::MIN_POSITIVE`, so the weight sum dominates `f64::MIN_POSITIVE`;
  theorems that need this take it as the hypothesis `f64MinPositive ≤ ws.sum`.
* Solana account state is modelled by plain structures; a failed `require!`
  aborts the transaction with no state committed, so the handlers are modelled
  as `Except ErrorCode` functions from the pre-state to the post-state.
-/

/-- `2^32`, the modulus of Rust `u32` arithmetic. -/
def u32Mod : ℕ := 4294967296

/-- Rust `u32::saturating_add`. -/
def satAdd32 (a b : ℕ) : ℕ := min (a + b) (u32Mod - 1)

/-- Rust release-mode (wrapping) `u32` subtraction `a - b`, for `b < 2^32`. -/
def u32Sub (a b : ℕ) : ℕ := (a + u32Mod - b) % u32Mod

/-- Rust release-mode `iter().sum::<u32>()`: a wrapping left fold. -/
def u32WrapSum (l : List ℕ) : ℕ := l.foldl (fun a b => (a + b) % u32Mod) 0

/-- `f64::round` rounds half away from zero.  Every call site in
`probability.rs` immediately casts the result with `as u32`, and on every
rational input `castU32 (rustRound x)` coincides with that composite, so the
simpler total formula `⌊x + 1/2⌋` is used here. -/
def rustRound (x : ℚ) : ℤ := ⌊x + 1/2⌋

/-- Rust `as u32` cast of a (rounded) float: clamps into `[0, 2^32 - 1]`. -/
def castU32 (z : ℤ) : ℕ := min z.toNat (u32Mod - 1)

/-- `f64::MIN_POSITIVE = 2^(-1022)`, used by the source as a division guard. -/
def f64MinPositive : ℚ := 1 / 2 ^ 1022

/-- First pass of `normalize_probabilities` (probability.rs:74-79): each item's
probability is `(weight / total_weight.max(MIN_POSITIVE) * 10000.0).round() as
u32`, where `total_weight` is the sum of the weights. -/
def initialProb (ws : List ℚ) : List ℕ :=
  ws.map (fun w => castU32 (rustRound (w / max ws.sum f64MinPositive * 10000)))

/-- `total_probability` of `normalize_probabilities` (probability.rs:78):
a `u32::saturating_add` fold over the rounded probabilities. -/
def initialTotal (ps : List ℕ) : ℕ := ps.foldl satAdd32 0

/-- One non-last entry of the correction loop (probability.rs:91):
`((item.probability as f64) * scale_factor).round() as u32` with
`scale_factor = 10000.0 / (total_probability as f64)`. -/
def rescaled (T p : ℕ) : ℕ := castU32 (rustRound ((p : ℚ) * (10000 / (T : ℚ))))

/-- `running_total` accumulated over a prefix of the correction loop
(probability.rs:84-92): a saturating-add fold of the rescaled entries. -/
def correctionRunning (T : ℕ) (ps : List ℕ) : ℕ :=
  ps.foldl (fun r p => satAdd32 r (rescaled T p)) 0

/-- The correction loop of `normalize_probabilities` (probability.rs:82-95):
every item but the last is rescaled by `10000 / total_probability`; the last
item is assigned `10000 - running_total`, an unchecked `u32` subtraction,
modelled with release-mode wrapping semantics. -/
def correctionLoop (T : ℕ) : List ℕ → ℕ → List ℕ
  | [], _ => []
  | [_], running => [u32Sub 10000 running]
  | p :: p₂ :: ps, running =>
      let q := rescaled T p
      q :: correctionLoop T (p₂ :: ps) (satAdd32 running q)

/-- `normalize_probabilities` after the initial rounding pass: the correction
runs only when `total_probability > 0 && total_probability != 10000`. -/
def normalizeFromInitial (ps : List ℕ) : List ℕ :=
  let T := initialTotal ps
  if 0 < T ∧ T ≠ 10000 then correctionLoop T ps 0 else ps

/-- `normalize_probabilities` (probability.rs:67-96) on the weight list. -/
def normalizeProbList (ws : List ℚ) : List ℕ :=
  normalizeFromInitial (initialProb ws)

/-- `validate_probabilities` (probability.rs:131-134): the wrapped `u32` sum of
the stored probabilities must equal 10000. -/
def validateProbabilities (out : List ℕ) : Bool :=
  u32WrapSum out == 10000

/-- The error codes of `lib.rs` (`ErrorCode`, lib.rs:733-789), restricted to the
variants the modelled handlers can produce. -/
inductive ErrorCode where
  | InvalidTicketPrice
  | NoItemsProvided
  | CompanyNameTooLong
  | CompanyImageTooLong
  | TooManyItems
  | InvalidItemPrice
  | ItemNameTooLong
  | ItemImageTooLong
  | ItemDescriptionTooLong
  | PoolInactive
  | NoAvailableItems
  | MathOverflow
  | InvalidProbabilityCalculation
  | ProbabilitySumMismatch
  | ProbabilitySelectionFailed
  | NotTicketOwner
  | InvalidTicketPool
  | TicketAlreadyUsed
  | TicketNotUsed
  | RewardAlreadyClaimed
  | NoRewardToClaim
  | InsufficientVaultFunds
  deriving DecidableEq, Repr

deriving instance DecidableEq for Except

/-- `calculate_item_probabilities` (probability.rs:191-206) on the item weight
list: fails on an empty item list, builds the calculator (whose `new` runs
`calculate_weights_advanced` and `normalize_probabilities`), then checks
`validate_probabilities` and returns the probability vector. -/
def calculate_item_probabilities (ws : List ℚ) : Except ErrorCode (List ℕ) :=
  if ws.isEmpty then .error .NoItemsProvided
  else
    let out := normalizeProbList ws
    if validateProbabilities out then .ok out
    else .error .InvalidProbabilityCalculation

/-- The cumulative scan of `select_winning_item_index` (probability.rs:221-226):
`cumulative_weight` grows by `u32::saturating_add`; the first index whose
cumulative weight strictly exceeds `random_value` is returned. -/
def selectScan (draw : ℕ) : List ℕ → ℕ → ℕ → Option ℕ
  | [], _, _ => none
  | w :: ws, cum, idx =>
      let c := satAdd32 cum w
      if draw < c then some idx else selectScan draw ws c (idx + 1)

/-- `select_winning_item_index` (probability.rs:209-229): the total weight is
the wrapping `u32` sum of the entries; a zero total yields `None`; otherwise
`random_value = random_seed % total` and the cumulative scan runs. -/
def select_winning_item_index (probabilities : List ℕ) (random_seed : ℕ) :
    Option ℕ :=
  let total := u32WrapSum probabilities
  if total = 0 then none
  else selectScan (random_seed % total) probabilities 0 0

/-- `WeightedItem` (probability.rs:3-9); the `f64` weight is an exact
rational. -/
structure WeightedItem where
  name : String
  value : ℕ
  weight : ℚ
  probability : ℕ
  deriving DecidableEq, Repr

/-- `WeightedProbabilityCalculator` (probability.rs:11-15). -/
structure WeightedProbabilityCalculator where
  items : List WeightedItem
  ticket_price : ℕ
  total_weight : ℚ
  deriving DecidableEq, Repr

/-- `get_probability_of_item` (probability.rs:99-105): the stored basis points
of the first item with the given name, divided by 10000; `0.0` if absent. -/
def get_probability_of_item (c : WeightedProbabilityCalculator)
    (item_name : String) : ℚ :=
  ((c.items.find? (fun it => it.name == item_name)).map
    (fun it => (it.probability : ℚ) / 10000)).getD 0

/-- `get_expected_spins_for_item` (probability.rs:114-120).  The source returns
`f64::INFINITY` when the probability is not positive; the embedding models the
`f64` value as `Option ℚ` with `none` standing for `+infinity`. -/
def get_expected_spins_for_item (c : WeightedProbabilityCalculator)
    (item_name : String) : Option ℚ :=
  let probability := get_probability_of_item c item_name
  if probability ≤ 0 then none else some (1 / probability)

/-- `ProfitabilityAnalysis` (probability.rs:160-168); all `f64` fields are
exact rationals (`expected_spins` is only stored when finite). -/
structure ProfitabilityAnalysis where
  item_name : String
  expected_spins : ℚ
  expected_cost : ℚ
  item_value : ℕ
  profit : ℚ
  profit_ratio : ℚ
  deriving DecidableEq, Repr

/-- `get_profitability_analysis` (probability.rs:137-157): `None` when the item
is absent or `expected_spins` is not finite; otherwise the full analysis. -/
def get_profitability_analysis (c : WeightedProbabilityCalculator)
    (item_name : String) : Option ProfitabilityAnalysis :=
  match c.items.find? (fun it => it.name == item_name) with
  | none => none
  | some item =>
    match get_expected_spins_for_item c item_name with
    | none => none
    | some expected_spins =>
      let expected_cost := expected_spins * (c.ticket_price : ℚ)
      let profit := (item.value : ℚ) - expected_cost
      let profit_ratio := profit / max expected_cost f64MinPositive
      some ⟨item_name, expected_spins, expected_cost, item.value, profit,
            profit_ratio⟩

/-- `PoolItem` (lib.rs:646-654). -/
structure PoolItem where
  image : String
  price : ℕ
  name : String
  description : String
  probability : ℕ
  available : Bool
  deriving DecidableEq, Repr

/-- `CompanyPool` (lib.rs:612-624); `Pubkey`s are modelled as naturals. -/
structure CompanyPool where
  authority : ℕ
  company_name : String
  company_image : String
  ticket_price : ℕ
  items : List PoolItem
  total_value : ℕ
  total_tickets_sold : ℕ
  total_funds : ℕ
  active : Bool
  created_at : ℤ
  deriving DecidableEq, Repr

/-- `WonItem` (lib.rs:664-671). -/
structure WonItem where
  name : String
  price : ℕ
  image : String
  description : String
  item_index : ℕ
  deriving DecidableEq, Repr

/-- `UserTicket` (lib.rs:630-639). -/
structure UserTicket where
  owner : ℕ
  company_pool : ℕ
  purchased_at : ℤ
  used : Bool
  ticket_id : ℕ
  won_item : Option WonItem
  reward_claimed : Bool
  deriving DecidableEq, Repr

/-- `PoolItemInput` (lib.rs:656-662). -/
structure PoolItemInput where
  image : String
  price : ℕ
  name : String
  description : String
  deriving DecidableEq, Repr

/-- The validation and probability-computation part of
`initialize_company_pool` (lib.rs:13-98), up to and including the
`ProbabilitySumMismatch` re-check of the stored probabilities.  The item
weights that `calculate_item_probabilities` consumes are passed explicitly
(see the module comment); all `require!` checks are modelled in source order.
A failed Anchor `require!` aborts with no state committed, so the handler is a
pure function to `Except`. -/
def initialize_company_pool (ticket_price : ℕ) (company_name : String)
    (company_image : String) (items : List PoolItemInput) (ws : List ℚ) :
    Except ErrorCode (List ℕ) :=
  if ¬ 0 < ticket_price then .error .InvalidTicketPrice
  else if items.isEmpty then .error .NoItemsProvided
  else if ¬ company_name.length ≤ 50 then .error .CompanyNameTooLong
  else if ¬ company_image.length ≤ 200 then .error .CompanyImageTooLong
  else if ¬ items.length ≤ 10 then .error .TooManyItems
  else if items.any (fun it => ¬ 0 < it.price) then .error .InvalidItemPrice
  else if items.any (fun it => ¬ it.name.length ≤ 50) then
    .error .ItemNameTooLong
  else if items.any (fun it => ¬ it.image.length ≤ 200) then
    .error .ItemImageTooLong
  else if items.any (fun it => ¬ it.description.length ≤ 200) then
    .error .ItemDescriptionTooLong
  else
    match calculate_item_probabilities ws with
    | .error _ => .error .InvalidProbabilityCalculation
    | .ok probabilities =>
      if u32WrapSum probabilities ≠ 10000 then .error .ProbabilitySumMismatch
      else .ok probabilities

/-- The pseudo-random seed of `record_spin_result` (lib.rs:279-287): an XOR
fold of on-chain `u64` values.  The XOR-shift fold of the first eight bytes of
the spinner key equals the key's low 64 bits. -/
def spinSeed (clock_ts : ℕ) (spinner : ℕ) (total_tickets_sold : ℕ)
    (vault_lamports : ℕ) (clock_slot : ℕ) (ticket_id : ℕ) : ℕ :=
  clock_ts ^^^ (spinner % 2 ^ 64) ^^^ total_tickets_sold ^^^ vault_lamports ^^^
    clock_slot ^^^ ticket_id

/-- `record_spin_result` (lib.rs:245-338).  Inputs beyond the two accounts are
the signer key, the pool account's key, the vault balance and the clock.  The
handler never assigns any `company_pool` field; on success it returns the pool
unchanged together with the updated ticket.  A failed `require!` (or the
`ok_or` on selection) aborts the transaction with no state committed. -/
def record_spin_result (pool : CompanyPool) (pool_key : ℕ)
    (ticket : UserTicket) (spinner : ℕ) (vault_lamports : ℕ)
    (clock_ts clock_slot : ℕ) : Except ErrorCode (CompanyPool × UserTicket) :=
  if ¬ pool.active then .error .PoolInactive
  else if pool.items.isEmpty then .error .NoItemsProvided
  else if ¬ ticket.owner = spinner then .error .NotTicketOwner
  else if ¬ ticket.company_pool = pool_key then .error .InvalidTicketPool
  else if ticket.used then .error .TicketAlreadyUsed
  else
    let ticket₁ := { ticket with used := true }
    let available_items :=
      pool.items.enum.filter (fun p => p.2.available ∧ 0 < p.2.probability)
    if available_items.isEmpty then .error .NoAvailableItems
    else
      let random_seed := spinSeed clock_ts spinner pool.total_tickets_sold
        vault_lamports clock_slot ticket.ticket_id
      let probabilities := available_items.map (fun p => p.2.probability)
      match select_winning_item_index probabilities random_seed with
      | none => .error .ProbabilitySelectionFailed
      | some winning_index =>
        match available_items.get? winning_index with
        | none => .error .ProbabilitySelectionFailed
        | some (actual_index, winning_item) =>
          let won : WonItem := ⟨winning_item.name, winning_item.price,
            winning_item.image, winning_item.description, actual_index⟩
          let ticket₂ := { ticket₁ with won_item := some won }
          .ok (pool, ticket₂)

/-- `claim_reward` (lib.rs:340-419): after the ownership/state checks and the
vault-balance check, the reward is paid, the ticket marked claimed, and the
pool's `total_funds` updated with `saturating_sub` (lib.rs:396-400), which `ℕ`
subtraction models exactly. -/
def claim_reward (pool : CompanyPool) (pool_key : ℕ) (ticket : UserTicket)
    (spinner : ℕ) (vault_lamports : ℕ) (rent_exempt_minimum : ℕ) :
    Except ErrorCode (CompanyPool × UserTicket) :=
  if ¬ pool.active then .error .PoolInactive
  else if ¬ ticket.owner = spinner then .error .NotTicketOwner
  else if ¬ ticket.company_pool = pool_key then .error .InvalidTicketPool
  else if ¬ ticket.used then .error .TicketNotUsed
  else if ticket.reward_claimed then .error .RewardAlreadyClaimed
  else
    match ticket.won_item with
    | none => .error .NoRewardToClaim
    | some won_item =>
      let reward_amount := won_item.price
      let available_balance := vault_lamports - rent_exempt_minimum
      if ¬ reward_amount ≤ available_balance then
        .error .InsufficientVaultFunds
      else
        .ok ({ pool with total_funds := pool.total_funds - reward_amount },
             { ticket with reward_claimed := true })

/-- Evaluation helper: the rounded-and-cast value of `x` is the natural number
`m` whenever `m ≤ x + 1/2 < m + 1` and `m` fits in a `u32`. -/
theorem castRound_eq (x : ℚ) (m : ℕ) (h1 : (m : ℚ) ≤ x + 1/2)
    (h2 : x + 1/2 < m + 1) (hm : m < u32Mod) : castU32 (rustRound x) = m := by
  have hfl : rustRound x = (m : ℤ) := by
    unfold rustRound
    rw [Int.floor_eq_iff]
    refine ⟨by exact_mod_cast h1, ?_⟩
    push_cast
    exact h2
  rw [castU32, hfl, Int.toNat_natCast]
  unfold u32Mod at hm ⊢
  omega

/-- Upper bound: rounding then casting never exceeds `x + 1/2` for `x ≥ 0`. -/
theorem castRound_le (x : ℚ) (hx : 0 ≤ x) :
    ((castU32 (rustRound x) : ℕ) : ℚ) ≤ x + 1/2 := by
  have h1 : (castU32 (rustRound x) : ℤ) ≤ rustRound x := by
    have h2 : castU32 (rustRound x) ≤ (rustRound x).toNat := min_le_left _ _
    have h3 : 0 ≤ rustRound x := by
      unfold rustRound
      positivity
    omega
  have h4 : ((rustRound x : ℤ) : ℚ) ≤ x + 1/2 := Int.floor_le _
  calc ((castU32 (rustRound x) : ℕ) : ℚ) = (((castU32 (rustRound x) : ℕ) : ℤ) : ℚ) := by
        push_cast; ring
    _ ≤ ((rustRound x : ℤ) : ℚ) := by exact_mod_cast h1
    _ ≤ x + 1/2 := h4

/-- Lower bound: for `0 ≤ x ≤ 10000` the cast does not truncate, and the
result is at least `x - 1/2` and at most `10000`. -/
theorem castRound_bounds (x : ℚ) (hx : 0 ≤ x) (hx2 : x ≤ 10000) :
    x - 1/2 ≤ ((castU32 (rustRound x) : ℕ) : ℚ) ∧ castU32 (rustRound x) ≤ 10000 := by
  have hup : ((castU32 (rustRound x) : ℕ) : ℚ) ≤ x + 1/2 := castRound_le x hx
  have hcap : castU32 (rustRound x) ≤ 10000 := by
    by_contra hgt
    push_neg at hgt
    have : (10001 : ℚ) ≤ ((castU32 (rustRound x) : ℕ) : ℚ) := by exact_mod_cast hgt
    linarith
  refine ⟨?_, hcap⟩
  have h0 : 0 ≤ rustRound x := by unfold rustRound; positivity
  have hsmall : (rustRound x).toNat ≤ u32Mod - 1 := by
    have : ((rustRound x : ℤ) : ℚ) ≤ x + 1/2 := Int.floor_le _
    have hz : (rustRound x : ℤ) ≤ 10001 := by
      by_contra hc
      push_neg at hc
      have : ((10002 : ℤ) : ℚ) ≤ ((rustRound x : ℤ) : ℚ) := by exact_mod_cast hc
      push_cast at this
      linarith
    unfold u32Mod
    omega
  have heq : castU32 (rustRound x) = (rustRound x).toNat := min_eq_left hsmall
  rw [heq]
  have hfl : x + 1/2 - 1 < ((rustRound x : ℤ) : ℚ) := Int.sub_one_lt_floor _
  have htn : (((rustRound x).toNat : ℕ) : ℚ) = ((rustRound x : ℤ) : ℚ) := by
    norm_cast
    exact Int.toNat_of_nonneg h0
  rw [htn]
  linarith

/-- Monotonicity of the round-and-cast composite. -/
theorem castRound_mono {x y : ℚ} (h : x ≤ y) :
    castU32 (rustRound x) ≤ castU32 (rustRound y) := by
  unfold castU32 rustRound
  exact min_le_min (Int.toNat_le_toNat (Int.floor_le_floor (by linarith))) le_rfl

/-- Monotonicity of the correction-loop rescaling in the stored probability. -/
theorem rescaled_mono (T : ℕ) {p q : ℕ} (h : p ≤ q) :
    rescaled T p ≤ rescaled T q := by
  unfold rescaled
  refine castRound_mono (mul_le_mul_of_nonneg_right (by exact_mod_cast h) ?_)
  positivity

/-- A saturating-add fold is bounded by the plain sum. -/
theorem foldl_satAdd_le (l : List ℕ) : ∀ a, l.foldl satAdd32 a ≤ a + l.sum := by
  induction l with
  | nil => intro a; simp
  | cons p tl ih =>
      intro a
      calc (p :: tl).foldl satAdd32 a = tl.foldl satAdd32 (satAdd32 a p) := rfl
        _ ≤ satAdd32 a p + tl.sum := ih _
        _ ≤ a + p + tl.sum := by
            have : satAdd32 a p ≤ a + p := min_le_left _ _
            omega
        _ = a + (p :: tl).sum := by rw [List.sum_cons]; ring

/-- A saturating-add fold equals the plain sum when no saturation occurs. -/
theorem foldl_satAdd_eq (l : List ℕ) :
    ∀ a, a + l.sum ≤ u32Mod - 1 → l.foldl satAdd32 a = a + l.sum := by
  induction l with
  | nil => intro a _; simp
  | cons p tl ih =>
      intro a h
      simp only [List.sum_cons, u32Mod] at h
      have hap : satAdd32 a p = a + p :=
        min_eq_left (by simp only [u32Mod]; omega)
      calc (p :: tl).foldl satAdd32 a = tl.foldl satAdd32 (satAdd32 a p) := rfl
        _ = satAdd32 a p + tl.sum := by
            rw [hap]
            exact ih _ (by simp only [u32Mod]; omega)
        _ = a + (p :: tl).sum := by rw [hap, List.sum_cons]; ring

/-- A wrapping-add fold equals the plain sum when no wrap occurs. -/
theorem foldl_wrapAdd_eq (l : List ℕ) :
    ∀ a, a + l.sum < u32Mod → l.foldl (fun x y => (x + y) % u32Mod) a = a + l.sum := by
  induction l with
  | nil => intro a _; simp
  | cons p tl ih =>
      intro a h
      simp only [List.sum_cons] at h
      have hap : (a + p) % u32Mod = a + p := Nat.mod_eq_of_lt (by omega)

      calc (p :: tl).foldl (fun x y => (x + y) % u32Mod) a
          = tl.foldl (fun x y => (x + y) % u32Mod) ((a + p) % u32Mod) := rfl
        _ = (a + p) + tl.sum := by rw [hap]; exact ih _ (by omega)
        _ = a + (p :: tl).sum := by rw [List.sum_cons]; ring

/-- The wrapping `u32` sum equals the plain sum below `2^32`. -/
theorem u32WrapSum_eq_sum (l : List ℕ) (h : l.sum < u32Mod) :
    u32WrapSum l = l.sum := by
  unfold u32WrapSum
  simpa using foldl_wrapAdd_eq l 0 (by omega)

/-- An all-zero list has wrapping sum zero. -/
theorem u32WrapSum_all_zero (l : List ℕ) (h : ∀ p ∈ l, p = 0) :
    u32WrapSum l = 0 := by
  have hl : l.sum = 0 := List.sum_eq_zero h
  rw [u32WrapSum_eq_sum l (by simp only [u32Mod]; omega)]
  exact hl

/-- Unfolding the correction loop one step when the tail is nonempty. -/
theorem correctionLoop_cons (T p : ℕ) (ps : List ℕ) (hps : ps ≠ []) (r : ℕ) :
    correctionLoop T (p :: ps) r =
      rescaled T p :: correctionLoop T ps (satAdd32 r (rescaled T p)) := by
  match ps with
  | [] => exact absurd rfl hps
  | q :: tl => rfl

/-- The correction loop splits into the rescaled prefix and the remainder-
absorbing last entry; the accumulator at the last step is the saturating fold
of the rescaled prefix. -/
theorem correctionLoop_append (T : ℕ) (l : List ℕ) (last : ℕ) :
    ∀ r, correctionLoop T (l ++ [last]) r =
      l.map (rescaled T) ++
        [u32Sub 10000 (l.foldl (fun a p => satAdd32 a (rescaled T p)) r)] := by
  induction l with
  | nil => intro r; rfl
  | cons p tl ih =>
      intro r
      rw [List.cons_append,
        correctionLoop_cons T p (tl ++ [last]) (by simp) r, ih]
      simp

/-- The correction loop preserves the length of the probability list. -/
theorem correctionLoop_length (T : ℕ) (ps : List ℕ) :
    ∀ r, (correctionLoop T ps r).length = ps.length := by
  induction ps with
  | nil => intro r; rfl
  | cons p tl ih =>
      intro r
      match tl, ih with
      | [], _ => rfl
      | q :: tl₂, ih =>
          rw [correctionLoop_cons T p (q :: tl₂) (by simp)]
          simp only [List.length_cons]
          rw [ih]
          simp

/-- The initial rounding pass preserves the item count. -/
theorem initialProb_length (ws : List ℚ) :
    (initialProb ws).length = ws.length := by
  unfold initialProb
  simp

/-- Entry formula for the initial rounding pass. -/
theorem initialProb_getD (ws : List ℚ) (i : ℕ) (h : i < ws.length) :
    (initialProb ws).getD i 0 =
      castU32 (rustRound (ws.getD i 0 / max ws.sum f64MinPositive * 10000)) := by
  unfold initialProb
  rw [List.getD_eq_getElem _ _ (by simpa using h), List.getD_eq_getElem _ _ h]
  simp

/-- For positive weights whose sum dominates `f64::MIN_POSITIVE`, every
initially rounded probability is at most 10000 basis points. -/
theorem initialProb_mem_le (ws : List ℚ) (hpos : ∀ w ∈ ws, 0 < w)
    (hmin : f64MinPositive ≤ ws.sum) : ∀ p ∈ initialProb ws, p ≤ 10000 := by
  intro p hp
  unfold initialProb at hp
  obtain ⟨w, hw, rfl⟩ := List.mem_map.mp hp
  rw [max_eq_left hmin]
  have hw0 : 0 < w := hpos w hw
  have hwS : w ≤ ws.sum :=
    List.single_le_sum (fun x hx => le_of_lt (hpos x hx)) w hw
  have hSpos : 0 < ws.sum :=
    lt_of_lt_of_le (by rw [f64MinPositive]; positivity) hmin
  have hx0 : 0 ≤ w / ws.sum * 10000 := by positivity
  have hx1 : w / ws.sum * 10000 ≤ 10000 := by
    have hr : w / ws.sum ≤ 1 := (div_le_one hSpos).mpr hwS
    nlinarith
  exact (castRound_bounds _ hx0 hx1).2

/-- The saturating accumulation of `total_probability` equals the plain sum
for at most ten items of at most 10000 basis points each. -/
theorem initialTotal_eq_sum (ps : List ℕ) (hb : ∀ p ∈ ps, p ≤ 10000)
    (hlen : ps.length ≤ 10) : initialTotal ps = ps.sum := by
  have hsum : ps.sum ≤ ps.length * 10000 := by
    have := List.sum_le_card_nsmul ps 10000 hb
    simpa [smul_eq_mul] using this
  unfold initialTotal
  simpa using foldl_satAdd_eq ps 0 (by simp only [u32Mod]; omega)

/-- Rational upper bound for the sum of rescaled entries: each entry adds at
most half a basis point of rounding slack. -/
theorem sum_rescaled_le (T : ℕ) (l : List ℕ) :
    (((l.map (rescaled T)).sum : ℕ) : ℚ) ≤
      (l.sum : ℚ) * (10000 / (T : ℚ)) + (l.length : ℚ) * (1/2) := by
  induction l with
  | nil => simp
  | cons p tl ih =>
      simp only [List.map_cons, List.sum_cons, List.length_cons]
      have hp : ((rescaled T p : ℕ) : ℚ) ≤ (p : ℚ) * (10000 / (T : ℚ)) + 1/2 := by
        unfold rescaled
        exact castRound_le _ (by positivity)
      push_cast
      push_cast at ih hp
      nlinarith [ih, hp]

/-- Core bound for the correction loop: the running total over a prefix of at
most nine entries whose stored probabilities sum to at most `T` never exceeds
`10004`. -/
theorem correctionRunning_le_10004 (T : ℕ) (hT : 0 < T) (l : List ℕ)
    (hl : l.sum ≤ T) (hlen : l.length ≤ 9) : correctionRunning T l ≤ 10004 := by
  have h1 : correctionRunning T l ≤ (l.map (rescaled T)).sum := by
    unfold correctionRunning
    have h := foldl_satAdd_le (l.map (rescaled T)) 0
    rw [List.foldl_map] at h
    simpa using h
  have h2 := sum_rescaled_le T l
  have hTq : 0 < (T : ℚ) := by exact_mod_cast hT
  have h3 : (l.sum : ℚ) * (10000 / (T : ℚ)) ≤ 10000 := by
    have hlq : (l.sum : ℚ) ≤ (T : ℚ) := by exact_mod_cast hl
    calc (l.sum : ℚ) * (10000 / (T : ℚ))
        ≤ (T : ℚ) * (10000 / (T : ℚ)) := by
          apply mul_le_mul_of_nonneg_right hlq
          positivity
      _ = 10000 := by field_simp
  have h4 : (l.length : ℚ) * (1/2) ≤ 9/2 := by
    have h9 : (l.length : ℚ) ≤ 9 := by exact_mod_cast hlen
    linarith
  by_contra hc
  push_neg at hc
  have h5 : (10005 : ℚ) ≤ ((correctionRunning T l : ℕ) : ℚ) := by exact_mod_cast hc
  have h6 : ((correctionRunning T l : ℕ) : ℚ) ≤
      (((l.map (rescaled T)).sum : ℕ) : ℚ) := by exact_mod_cast h1
  linarith

/-- Dropping the last element never increases a list sum. -/
theorem sum_dropLast_le (l : List ℕ) : l.dropLast.sum ≤ l.sum := by
  rcases eq_or_ne l [] with h | h
  · subst h; simp
  · conv_rhs => rw [← List.dropLast_append_getLast h]
    rw [List.sum_append]
    omega

/-- Initial rounding of the four-item underflow input: the exact ratios are
`[4999.7, 4999.55, 0.6, 0.15]`, which round to `[5000, 5000, 1, 0]`. -/
theorem initialProb_cex :
    initialProb [49997/10, 499955/100, 3/5, 3/20] = [5000, 5000, 1, 0] := by
  have hmax : max ([(49997:ℚ)/10, 499955/100, 3/5, 3/20].sum) f64MinPositive
      = 10000 := by
    rw [f64MinPositive, max_eq_left] <;> simp [List.sum_cons] <;> norm_num
  have e1 : castU32 (rustRound ((49997:ℚ)/10 / 10000 * 10000)) = 5000 :=
    castRound_eq _ _ (by norm_num) (by norm_num) (by norm_num [u32Mod])
  have e2 : castU32 (rustRound ((499955:ℚ)/100 / 10000 * 10000)) = 5000 :=
    castRound_eq _ _ (by norm_num) (by norm_num) (by norm_num [u32Mod])
  have e3 : castU32 (rustRound ((3:ℚ)/5 / 10000 * 10000)) = 1 :=
    castRound_eq _ _ (by norm_num) (by norm_num) (by norm_num [u32Mod])
  have e4 : castU32 (rustRound ((3:ℚ)/20 / 10000 * 10000)) = 0 :=
    castRound_eq _ _ (by norm_num) (by norm_num) (by norm_num [u32Mod])
  simp only [initialProb, List.map_cons, List.map_nil]
  rw [hmax, e1, e2, e3, e4]

/-- Rescaling 5000 basis points by `10000/10001` rounds back to 5000. -/
theorem rescaled_10001_5000 : rescaled 10001 5000 = 5000 :=
  castRound_eq _ _ (by norm_num) (by norm_num) (by norm_num [u32Mod])

/-- Rescaling 1 basis point by `10000/10001` rounds back to 1. -/
theorem rescaled_10001_1 : rescaled 10001 1 = 1 :=
  castRound_eq _ _ (by norm_num) (by norm_num) (by norm_num [u32Mod])

/-- On the underflow input the correction loop's unchecked subtraction wraps:
the last entry becomes `2^32 - 1` basis points. -/
theorem normalize_cex :
    normalizeProbList [49997/10, 499955/100, 3/5, 3/20] =
      [5000, 5000, 1, 4294967295] := by
  have ht : initialTotal [5000, 5000, 1, 0] = 10001 := by decide
  simp only [normalizeProbList, normalizeFromInitial, initialProb_cex, ht]
  rw [if_pos (⟨by norm_num, by norm_num⟩ : 0 < 10001 ∧ (10001:ℕ) ≠ 10000)]
  simp only [correctionLoop]
  rw [rescaled_10001_5000, rescaled_10001_1]
  decide

/-- Equal weights (as produced by `n` items of identical value at a fixed
ticket price) give identical ratios: the initial rounding pass yields `n`
copies of `round(10000/n)`, independently of the common weight. -/
theorem initialProb_replicate (n : ℕ) (w : ℚ) (hw : 0 < w)
    (hmin : f64MinPositive ≤ (List.replicate n w).sum) :
    initialProb (List.replicate n w) =
      List.replicate n (castU32 (rustRound (10000 / (n : ℚ)))) := by
  unfold initialProb
  rw [List.map_replicate]
  rcases Nat.eq_zero_or_pos n with hn | hn
  · subst hn; simp
  have harg : w / max (List.replicate n w).sum f64MinPositive * 10000
      = 10000 / (n : ℚ) := by
    rw [max_eq_left hmin, List.sum_replicate, nsmul_eq_mul]
    have hw0 : w ≠ 0 := ne_of_gt hw
    have hn0 : ((n : ℕ) : ℚ) ≠ 0 := Nat.cast_ne_zero.mpr hn.ne'
    field_simp
    ring
  rw [harg]

/-- Six equal weights round to 1667 basis points each. -/
theorem round_10000_div_6 : castU32 (rustRound (10000 / (6:ℚ))) = 1667 :=
  castRound_eq _ _ (by norm_num) (by norm_num) (by norm_num [u32Mod])

/-- All-ones weight lists satisfy the positivity hypothesis. -/
theorem replicate_one_pos (n : ℕ) : ∀ w ∈ List.replicate n (1:ℚ), 0 < w := by
  intro w hw
  rw [List.eq_of_mem_replicate hw]
  norm_num

/-- Six unit weights dominate `f64::MIN_POSITIVE`. -/
theorem replicate_six_min :
    f64MinPositive ≤ (List.replicate 6 (1:ℚ)).sum := by
  rw [List.sum_replicate, nsmul_eq_mul, f64MinPositive]
  norm_num

/-- The initial pass on six unit weights. -/
theorem initialProb_six :
    initialProb (List.replicate 6 (1:ℚ)) = List.replicate 6 1667 := by
  rw [initialProb_replicate 6 1 (by norm_num) replicate_six_min]
  push_cast
  rw [round_10000_div_6]

/-- C1: the claim states that for 1–10 items of positive value and a positive
ticket price, `calculate_item_probabilities` returns a same-length vector
summing to exactly 10000 basis points.  The code violates this: on the item
weights `[4999.7, 4999.55, 0.6, 0.15]` (reachable ratios, e.g. two cheap
items, one priced near two tickets worth, one very expensive) the initial
rounding gives `[5000, 5000, 1, 0]` with total 10001, the correction loop's
running total reaches 10001, and the unchecked `10000 - running_total` wraps,
so the function returns `Ok` with a vector whose true sum is `2^32 + 10000`,
not 10000 (the wrapping `u32` validation sum still reads 10000, masking the
corruption; a debug build would panic instead). -/
theorem C1_exact_sum_code_bug :
    calculate_item_probabilities [49997/10, 499955/100, 3/5, 3/20] =
      .ok [5000, 5000, 1, 4294967295] ∧
    ([5000, 5000, 1, 4294967295] : List ℕ).sum ≠ 10000 := by
  refine ⟨?_, by decide⟩
  have hval : validateProbabilities [5000, 5000, 1, 4294967295] = true := by
    decide
  simp [calculate_item_probabilities, normalize_cex, hval]

/-- C9 counterexample: the claim states that whenever the correction branch is
taken (positive initial total different from 10000), the running total over
the first `n-1` rescaled probabilities is at most 10000.  On the weight list
`[4999.7, 4999.55, 0.6, 0.15]` the branch is taken with total 10001 and the
running total reaches 10001 > 10000, so the unchecked subtraction underflows. -/
theorem C9_running_total_counterexample :
    0 < initialTotal (initialProb [49997/10, 499955/100, 3/5, 3/20]) ∧
    initialTotal (initialProb [49997/10, 499955/100, 3/5, 3/20]) ≠ 10000 ∧
    10000 < correctionRunning
      (initialTotal (initialProb [49997/10, 499955/100, 3/5, 3/20]))
      ((initialProb [49997/10, 499955/100, 3/5, 3/20]).dropLast) := by
  rw [initialProb_cex]
  have ht : initialTotal [5000, 5000, 1, 0] = 10001 := by decide
  rw [ht]
  refine ⟨by norm_num, by norm_num, ?_⟩
  have hr : correctionRunning 10001 [5000, 5000, 1] = 10001 := by
    unfold correctionRunning
    simp only [List.foldl_cons, List.foldl_nil]
    rw [show satAdd32 0 (rescaled 10001 5000) = 5000 by
          rw [rescaled_10001_5000]; decide]
    rw [show satAdd32 5000 (rescaled 10001 5000) = 10000 by
          rw [rescaled_10001_5000]; decide]
    rw [show satAdd32 10000 (rescaled 10001 1) = 10001 by
          rw [rescaled_10001_1]; decide]
  have hdl : ([5000, 5000, 1, 0] : List ℕ).dropLast = [5000, 5000, 1] := by
    decide
  rw [hdl, hr]
  norm_num

/-- C9 amended: the running total accumulated before the last item's
assignment can exceed 10000 (see the counterexample), so the unchecked
subtraction can underflow; what does hold is that for at most ten items of
positive weight (with weight sum above `f64::MIN_POSITIVE`, as the source's
`max` guard and the `u64` input range ensure) the running total never exceeds
`10004`, each rescaled entry adding at most half a basis point of rounding
slack over its proportional share. -/
theorem C9_running_total_amended (ws : List ℚ) (hpos : ∀ w ∈ ws, 0 < w)
    (hmin : f64MinPositive ≤ ws.sum) (hlen : ws.length ≤ 10)
    (hT : 0 < initialTotal (initialProb ws))
    (hT10 : initialTotal (initialProb ws) ≠ 10000) :
    correctionRunning (initialTotal (initialProb ws))
      ((initialProb ws).dropLast) ≤ 10004 := by
  have hb := initialProb_mem_le ws hpos hmin
  have hlen2 : (initialProb ws).length ≤ 10 := by
    rw [initialProb_length]
    exact hlen
  have hTsum : initialTotal (initialProb ws) = (initialProb ws).sum :=
    initialTotal_eq_sum _ hb hlen2
  apply correctionRunning_le_10004 _ hT
  · rw [hTsum]
    exact sum_dropLast_le _
  · rw [List.length_dropLast]
    omega

/-- C9 witness: the amended bound holds concretely on six unit weights, where
the correction branch is taken (total 10002) and the running total is 8335. -/
theorem C9_running_total_amended_witness :
    0 < initialTotal (initialProb (List.replicate 6 (1:ℚ))) ∧
    initialTotal (initialProb (List.replicate 6 (1:ℚ))) ≠ 10000 ∧
    correctionRunning (initialTotal (initialProb (List.replicate 6 (1:ℚ))))
      ((initialProb (List.replicate 6 (1:ℚ))).dropLast) ≤ 10004 := by
  have h1 : 0 < initialTotal (initialProb (List.replicate 6 (1:ℚ))) := by
    rw [initialProb_six]; decide
  have h2 : initialTotal (initialProb (List.replicate 6 (1:ℚ))) ≠ 10000 := by
    rw [initialProb_six]; decide
  exact ⟨h1, h2, C9_running_total_amended _ (replicate_one_pos 6)
    replicate_six_min (by simp) h1 h2⟩

/-- Initial rounding for one cheap item and one item a billion times dearer:
the expensive item's share rounds to zero basis points. -/
theorem initialProb_c3 :
    initialProb [1, 1/1000000000] = [10000, 0] := by
  have hsum : ([(1:ℚ), 1/1000000000].sum) = 1000000001/1000000000 := by
    simp [List.sum_cons]
    norm_num
  have hmax : max ([(1:ℚ), 1/1000000000].sum) f64MinPositive
      = 1000000001/1000000000 := by
    rw [hsum, f64MinPositive, max_eq_left]
    norm_num
  have e1 : castU32 (rustRound ((1:ℚ) / (1000000001/1000000000) * 10000))
      = 10000 :=
    castRound_eq _ _ (by norm_num) (by norm_num) (by norm_num [u32Mod])
  have e2 : castU32 (rustRound
      ((1:ℚ)/1000000000 / (1000000001/1000000000) * 10000)) = 0 :=
    castRound_eq _ _ (by norm_num) (by norm_num) (by norm_num [u32Mod])
  simp only [initialProb, List.map_cons, List.map_nil]
  rw [hmax, e1, e2]

/-- C3 counterexample: the claim states that every entry of the computed
vector is at least a positive minimum floor (1–50 basis points), i.e. no
included item gets probability zero.  The code enforces no floor at all: for
weights `[1, 10^-9]` (a very high-value second item) the computation succeeds
and stores `[10000, 0]` — the second item's probability is exactly zero. -/
theorem C3_floor_counterexample :
    calculate_item_probabilities [1, 1/1000000000] = .ok [10000, 0] ∧
    ¬ (∀ p ∈ ([10000, 0] : List ℕ), 1 ≤ p) := by
  refine ⟨?_, by decide⟩
  have ht : initialTotal [10000, 0] = 10000 := by decide
  have hnorm : normalizeProbList [1, 1/1000000000] = [10000, 0] := by
    simp only [normalizeProbList, normalizeFromInitial, initialProb_c3, ht]
    rw [if_neg (by norm_num)]
  have hval : validateProbabilities [10000, 0] = true := by decide
  simp only [calculate_item_probabilities]
  rw [if_neg (by decide : ¬ (([(1:ℚ), 1/1000000000]).isEmpty = true)), hnorm,
    if_pos hval]

/-- C3 amended: no positive per-item floor holds — an included item's stored
probability can be zero (see the counterexample).  What the success path does
guarantee is that the returned vector is never all-zero: whenever
`calculate_item_probabilities` returns `Ok`, the wrapped validation sum is
10000, so some entry is positive. -/
theorem C3_floor_amended (ws : List ℚ) (out : List ℕ)
    (h : calculate_item_probabilities ws = .ok out) : ∃ p ∈ out, 0 < p := by
  unfold calculate_item_probabilities at h
  by_cases he : ws.isEmpty
  · rw [if_pos he] at h
    cases h
  · rw [if_neg he] at h
    by_cases hv : validateProbabilities (normalizeProbList ws)
    · rw [if_pos hv] at h
      injection h with h
      subst h
      have hsum : u32WrapSum (normalizeProbList ws) = 10000 := by
        simpa [validateProbabilities] using hv
      by_contra hall
      push_neg at hall
      have hz : ∀ p ∈ normalizeProbList ws, p = 0 := by
        intro p hp
        exact Nat.eq_zero_of_le_zero (hall p hp)
      rw [u32WrapSum_all_zero _ hz] at hsum
      exact absurd hsum (by norm_num)
    · rw [if_neg hv] at h
      cases h

/-- C3 witness: on two equal unit weights the function returns `[5000, 5000]`
and the amended theorem yields a positive entry. -/
theorem C3_floor_amended_witness :
    calculate_item_probabilities [1, 1] = .ok [5000, 5000] ∧
    ∃ p ∈ ([5000, 5000] : List ℕ), 0 < p := by
  have hsum : ([(1:ℚ), 1].sum) = 2 := by
    simp [List.sum_cons]
    norm_num
  have hmax : max ([(1:ℚ), 1].sum) f64MinPositive = 2 := by
    rw [hsum, f64MinPositive, max_eq_left]
    norm_num
  have e1 : castU32 (rustRound ((1:ℚ) / 2 * 10000)) = 5000 :=
    castRound_eq _ _ (by norm_num) (by norm_num) (by norm_num [u32Mod])
  have hinit : initialProb [1, 1] = [5000, 5000] := by
    simp only [initialProb, List.map_cons, List.map_nil]
    rw [hmax, e1]
  have ht : initialTotal [5000, 5000] = 10000 := by decide
  have hnorm : normalizeProbList [1, 1] = [5000, 5000] := by
    simp only [normalizeProbList, normalizeFromInitial, hinit, ht]
    rw [if_neg (by norm_num)]
  have hok : calculate_item_probabilities [1, 1] = .ok [5000, 5000] := by
    have hval : validateProbabilities [5000, 5000] = true := by decide
    simp [calculate_item_probabilities, hnorm, hval]
  exact ⟨hok, C3_floor_amended _ _ hok⟩

/-- The cumulative scan returns the first index whose running sum strictly
exceeds the draw, whenever the draw lies below the total and the total fits in
a `u32` (so the saturating additions are exact). -/
theorem selectScan_spec (draw : ℕ) :
    ∀ (l : List ℕ) (cum idx : ℕ), cum ≤ draw → draw < cum + l.sum →
      cum + l.sum < u32Mod →
      ∃ k, k < l.length ∧ selectScan draw l cum idx = some (idx + k) ∧
        draw < cum + (l.take (k+1)).sum ∧
        ∀ m < k, cum + (l.take (m+1)).sum ≤ draw := by
  intro l
  induction l with
  | nil =>
      intro cum idx h1 h2 h3
      simp only [List.sum_nil] at h2
      omega
  | cons w tl ih =>
      intro cum idx h1 h2 h3
      simp only [List.sum_cons] at h2 h3
      have hc : satAdd32 cum w = cum + w :=
        min_eq_left (by simp only [u32Mod] at h3 ⊢; omega)
      by_cases hlt : draw < cum + w
      · refine ⟨0, by simp, ?_, ?_, by intro m hm; omega⟩
        · simp only [selectScan]
          rw [hc, if_pos hlt]
          norm_num
        · simpa [List.take_succ_cons, List.sum_cons] using hlt
      · push_neg at hlt
        obtain ⟨k, hk1, hk2, hk3, hk4⟩ :=
          ih (cum + w) (idx + 1) hlt (by omega) (by omega)
        refine ⟨k + 1, by simp only [List.length_cons]; omega, ?_, ?_, ?_⟩
        · simp only [selectScan]
          rw [hc, if_neg (by omega), hk2]
          congr 1
          omega
        · rw [List.take_succ_cons, List.sum_cons]
          omega
        · intro m hm
          match m with
          | 0 =>
              rw [List.take_succ_cons, List.sum_cons]
              simp only [List.take_zero, List.sum_nil]
              omega
          | m + 1 =>
              have hm2 := hk4 m (by omega)
              rw [List.take_succ_cons, List.sum_cons]
              omega

/-- The correction loop's entries before the last position are the rescaled
initial probabilities. -/
theorem correctionLoop_getD_nonlast (T : ℕ) (ps : List ℕ) (hne : ps ≠ [])
    (i : ℕ) (h : i + 1 < ps.length) :
    (correctionLoop T ps 0).getD i 0 = rescaled T (ps.getD i 0) := by
  conv_lhs => rw [← List.dropLast_append_getLast hne, correctionLoop_append]
  have hlen : i < ps.dropLast.length := by
    rw [List.length_dropLast]
    omega
  rw [List.getD_append _ _ _ _ (by simpa using hlen),
    List.getD_eq_getElem _ _ (by simpa using hlen), List.getElem_map,
    List.getElem_dropLast, List.getD_eq_getElem _ _ (by omega)]

/-- C5 amended: monotonicity (higher weight, i.e. lower item value, never gets
a smaller probability) holds for every pair of positions that excludes the
last item; the last item absorbs the exact-sum remainder and can break it
(see the counterexample). -/
theorem C5_monotone_amended (ws : List ℚ) (i j : ℕ)
    (hi : i + 1 < ws.length) (hj : j + 1 < ws.length)
    (hij : ws.getD i 0 < ws.getD j 0) :
    (normalizeProbList ws).getD i 0 ≤ (normalizeProbList ws).getD j 0 := by
  have hD : (0:ℚ) < max ws.sum f64MinPositive :=
    lt_of_lt_of_le (by rw [f64MinPositive]; positivity) (le_max_right _ _)
  have hx : ws.getD i 0 / max ws.sum f64MinPositive * 10000 ≤
      ws.getD j 0 / max ws.sum f64MinPositive * 10000 := by
    apply mul_le_mul_of_nonneg_right _ (by norm_num : (0:ℚ) ≤ 10000)
    exact (div_le_div_iff_of_pos_right hD).mpr hij.le
  have hp : (initialProb ws).getD i 0 ≤ (initialProb ws).getD j 0 := by
    rw [initialProb_getD ws i (by omega), initialProb_getD ws j (by omega)]
    exact castRound_mono hx
  have hlen : (initialProb ws).length = ws.length := initialProb_length ws
  have hne : initialProb ws ≠ [] := by
    intro hc
    rw [hc] at hlen
    simp at hlen
    omega
  simp only [normalizeProbList, normalizeFromInitial]
  by_cases hbr : 0 < initialTotal (initialProb ws) ∧
      initialTotal (initialProb ws) ≠ 10000
  · rw [if_pos hbr, correctionLoop_getD_nonlast _ _ hne i (by omega),
      correctionLoop_getD_nonlast _ _ hne j (by omega)]
    exact rescaled_mono _ hp
  · rw [if_neg hbr]
    exact hp

/-- C2 counterexample: the claim quantifies over every probability vector and
states that `None` is returned exactly when the entry sum is zero.  The total
is computed as a wrapping `u32` sum, so two entries of `2^31` wrap to a total
of zero and the function returns `None` although the mathematical sum `2^32`
is positive (a build with overflow checks would panic on the same input). -/
theorem C2_select_counterexample :
    select_winning_item_index [2147483648, 2147483648] 0 = none ∧
    ([2147483648, 2147483648] : List ℕ).sum ≠ 0 := by
  constructor
  · decide
  · decide

/-- C2 amended: restricted to probability vectors whose entry sum fits in a
`u32` (which holds for every vector of stored basis points the pool can hold),
the claim is exact: `None` is returned iff the sum is zero, and for a positive
sum the result is the first index whose cumulative sum strictly exceeds
`draw = seed mod total`, which always exists since `draw < total`. -/
theorem C2_select_amended (probs : List ℕ) (seed : ℕ) (h : probs.sum < u32Mod) :
    (select_winning_item_index probs seed = none ↔ probs.sum = 0) ∧
    (0 < probs.sum →
      ∃ i, select_winning_item_index probs seed = some i ∧ i < probs.length ∧
        seed % probs.sum < (probs.take (i+1)).sum ∧
        ∀ j < i, (probs.take (j+1)).sum ≤ seed % probs.sum) := by
  have htot : u32WrapSum probs = probs.sum := u32WrapSum_eq_sum probs h
  constructor
  · constructor
    · intro hn
      by_contra hs
      have hpos : 0 < probs.sum := Nat.pos_of_ne_zero hs
      obtain ⟨k, hk1, hk2, _, _⟩ := selectScan_spec (seed % probs.sum) probs 0 0
        (Nat.zero_le _) (by have := Nat.mod_lt seed hpos; omega) (by omega)
      unfold select_winning_item_index at hn
      rw [htot, if_neg hs, hk2] at hn
      cases hn
    · intro hz
      unfold select_winning_item_index
      rw [htot, if_pos hz]
  · intro hpos
    obtain ⟨k, hk1, hk2, hk3, hk4⟩ := selectScan_spec (seed % probs.sum) probs
      0 0 (Nat.zero_le _) (by have := Nat.mod_lt seed hpos; omega) (by omega)
    refine ⟨k, ?_, hk1, by simpa using hk3, ?_⟩
    · unfold select_winning_item_index
      rw [htot, if_neg (by omega)]
      simpa using hk2
    · intro j hj
      have hj2 := hk4 j hj
      simpa using hj2

/-- C2 witness: on the vector `[7000, 2000, 1000]` with seed 12345 the amended
characterization holds concretely. -/
theorem C2_select_amended_witness :
    ([7000, 2000, 1000] : List ℕ).sum < u32Mod ∧
    ((select_winning_item_index [7000, 2000, 1000] 12345 = none ↔
        ([7000, 2000, 1000] : List ℕ).sum = 0) ∧
      (0 < ([7000, 2000, 1000] : List ℕ).sum →
        ∃ i, select_winning_item_index [7000, 2000, 1000] 12345 = some i ∧
          i < ([7000, 2000, 1000] : List ℕ).length ∧
          12345 % ([7000, 2000, 1000] : List ℕ).sum <
            (([7000, 2000, 1000] : List ℕ).take (i+1)).sum ∧
          ∀ j < i, (([7000, 2000, 1000] : List ℕ).take (j+1)).sum ≤
            12345 % ([7000, 2000, 1000] : List ℕ).sum)) :=
  ⟨by decide, C2_select_amended [7000, 2000, 1000] 12345 (by decide)⟩

/-- Initial rounding for six items of ratio 1428.55 and a seventh, slightly
cheaper item of ratio 1428.7: all seven entries round to 1429. -/
theorem initialProb_c5 :
    initialProb [142855/100, 142855/100, 142855/100, 142855/100, 142855/100,
      142855/100, 14287/10] = [1429, 1429, 1429, 1429, 1429, 1429, 1429] := by
  have hmax : max ([(142855:ℚ)/100, 142855/100, 142855/100, 142855/100,
      142855/100, 142855/100, 14287/10].sum) f64MinPositive = 10000 := by
    rw [f64MinPositive, max_eq_left] <;> simp [List.sum_cons] <;> norm_num
  have e1 : castU32 (rustRound ((142855:ℚ)/100 / 10000 * 10000)) = 1429 :=
    castRound_eq _ _ (by norm_num) (by norm_num) (by norm_num [u32Mod])
  have e2 : castU32 (rustRound ((14287:ℚ)/10 / 10000 * 10000)) = 1429 :=
    castRound_eq _ _ (by norm_num) (by norm_num) (by norm_num [u32Mod])
  simp only [initialProb, List.map_cons, List.map_nil]
  rw [hmax, e1, e2]

/-- Rescaling 1429 basis points by `10000/10003` rounds back to 1429. -/
theorem rescaled_10003_1429 : rescaled 10003 1429 = 1429 :=
  castRound_eq _ _ (by norm_num) (by norm_num) (by norm_num [u32Mod])

/-- Normalization of the seven-item counterexample: the first six keep 1429
while the last absorbs the remainder and drops to 1426. -/
theorem normalize_c5 :
    normalizeProbList [142855/100, 142855/100, 142855/100, 142855/100,
      142855/100, 142855/100, 14287/10] =
      [1429, 1429, 1429, 1429, 1429, 1429, 1426] := by
  have ht : initialTotal [1429, 1429, 1429, 1429, 1429, 1429, 1429] = 10003 :=
    by decide
  simp only [normalizeProbList, normalizeFromInitial, initialProb_c5, ht]
  rw [if_pos (⟨by norm_num, by norm_num⟩ : 0 < 10003 ∧ (10003:ℕ) ≠ 10000)]
  simp only [correctionLoop]
  rw [rescaled_10003_1429]
  decide

/-- C5 counterexample: the claim states that for any two items, a strictly
higher value (hence strictly smaller weight) implies a probability at most
that of the other item.  For the weight list `[1428.55 sixfold, 1428.7]` the
first item has strictly smaller weight (strictly higher value) than the last,
so the claim requires `probability_0 ≤ probability_6`; the code instead stores
1429 for position 0 and only 1426 for the remainder-absorbing last position. -/
theorem C5_monotone_counterexample :
    ([(142855:ℚ)/100, 142855/100, 142855/100, 142855/100, 142855/100,
        142855/100, 14287/10].getD 0 0 <
      [(142855:ℚ)/100, 142855/100, 142855/100, 142855/100, 142855/100,
        142855/100, 14287/10].getD 6 0) ∧
    (normalizeProbList [142855/100, 142855/100, 142855/100, 142855/100,
        142855/100, 142855/100, 14287/10]).getD 6 0 <
    (normalizeProbList [142855/100, 142855/100, 142855/100, 142855/100,
        142855/100, 142855/100, 14287/10]).getD 0 0 := by
  constructor
  · simp only [List.getD_cons_zero, List.getD_cons_succ]
    norm_num
  · rw [normalize_c5]
    decide

/-- C5 witness: on the weight list `[1, 2, 3]` positions 0 and 1 (both
non-last) satisfy the amended monotonicity. -/
theorem C5_monotone_amended_witness :
    (0 + 1 < ([(1:ℚ), 2, 3]).length ∧ 1 + 1 < ([(1:ℚ), 2, 3]).length ∧
      ([(1:ℚ), 2, 3]).getD 0 0 < ([(1:ℚ), 2, 3]).getD 1 0) ∧
    (normalizeProbList [1, 2, 3]).getD 0 0 ≤
      (normalizeProbList [1, 2, 3]).getD 1 0 :=
  ⟨⟨by norm_num, by norm_num,
      by simp only [List.getD_cons_zero, List.getD_cons_succ]; norm_num⟩,
   C5_monotone_amended [1, 2, 3] 0 1 (by norm_num) (by norm_num)
     (by simp only [List.getD_cons_zero, List.getD_cons_succ]; norm_num)⟩

/-- Two equal weights round to 5000 basis points each. -/
theorem round_10000_div_2 : castU32 (rustRound (10000 / (2:ℚ))) = 5000 :=
  castRound_eq _ _ (by norm_num) (by norm_num) (by norm_num [u32Mod])

/-- Three equal weights round to 3333 basis points each. -/
theorem round_10000_div_3 : castU32 (rustRound (10000 / (3:ℚ))) = 3333 :=
  castRound_eq _ _ (by norm_num) (by norm_num) (by norm_num [u32Mod])

/-- Four equal weights round to 2500 basis points each. -/
theorem round_10000_div_4 : castU32 (rustRound (10000 / (4:ℚ))) = 2500 :=
  castRound_eq _ _ (by norm_num) (by norm_num) (by norm_num [u32Mod])

/-- Five equal weights round to 2000 basis points each. -/
theorem round_10000_div_5 : castU32 (rustRound (10000 / (5:ℚ))) = 2000 :=
  castRound_eq _ _ (by norm_num) (by norm_num) (by norm_num [u32Mod])

/-- Seven equal weights round to 1429 basis points each. -/
theorem round_10000_div_7 : castU32 (rustRound (10000 / (7:ℚ))) = 1429 :=
  castRound_eq _ _ (by norm_num) (by norm_num) (by norm_num [u32Mod])

/-- Eight equal weights round to 1250 basis points each. -/
theorem round_10000_div_8 : castU32 (rustRound (10000 / (8:ℚ))) = 1250 :=
  castRound_eq _ _ (by norm_num) (by norm_num) (by norm_num [u32Mod])

/-- Nine equal weights round to 1111 basis points each. -/
theorem round_10000_div_9 : castU32 (rustRound (10000 / (9:ℚ))) = 1111 :=
  castRound_eq _ _ (by norm_num) (by norm_num) (by norm_num [u32Mod])

/-- Ten equal weights round to 1000 basis points each. -/
theorem round_10000_div_10 : castU32 (rustRound (10000 / (10:ℚ))) = 1000 :=
  castRound_eq _ _ (by norm_num) (by norm_num) (by norm_num [u32Mod])

/-- Rescaling 3333 basis points by `10000/9999` rounds back to 3333. -/
theorem rescaled_9999_3333 : rescaled 9999 3333 = 3333 :=
  castRound_eq _ _ (by norm_num) (by norm_num) (by norm_num [u32Mod])

/-- Rescaling 1667 basis points by `10000/10002` rounds back to 1667. -/
theorem rescaled_10002_1667 : rescaled 10002 1667 = 1667 :=
  castRound_eq _ _ (by norm_num) (by norm_num) (by norm_num [u32Mod])

/-- Rescaling 1111 basis points by `10000/9999` rounds back to 1111. -/
theorem rescaled_9999_1111 : rescaled 9999 1111 = 1111 :=
  castRound_eq _ _ (by norm_num) (by norm_num) (by norm_num [u32Mod])

/-- Normalization of three equal initial shares: `[3333, 3333, 3334]`. -/
theorem normFromInit_rep3 :
    normalizeFromInitial (List.replicate 3 3333) = [3333, 3333, 3334] := by
  have ht : initialTotal (List.replicate 3 3333) = 9999 := by decide
  simp only [normalizeFromInitial, ht]
  rw [if_pos (⟨by norm_num, by norm_num⟩ : 0 < 9999 ∧ (9999:ℕ) ≠ 10000)]
  simp only [List.replicate_succ, List.replicate_zero, correctionLoop]
  rw [rescaled_9999_3333]
  decide

/-- Normalization of six equal initial shares: `[1667 fivefold, 1665]`. -/
theorem normFromInit_rep6 :
    normalizeFromInitial (List.replicate 6 1667) =
      [1667, 1667, 1667, 1667, 1667, 1665] := by
  have ht : initialTotal (List.replicate 6 1667) = 10002 := by decide
  simp only [normalizeFromInitial, ht]
  rw [if_pos (⟨by norm_num, by norm_num⟩ : 0 < 10002 ∧ (10002:ℕ) ≠ 10000)]
  simp only [List.replicate_succ, List.replicate_zero, correctionLoop]
  rw [rescaled_10002_1667]
  decide

/-- Normalization of seven equal initial shares: `[1429 sixfold, 1426]`. -/
theorem normFromInit_rep7 :
    normalizeFromInitial (List.replicate 7 1429) =
      [1429, 1429, 1429, 1429, 1429, 1429, 1426] := by
  have ht : initialTotal (List.replicate 7 1429) = 10003 := by decide
  simp only [normalizeFromInitial, ht]
  rw [if_pos (⟨by norm_num, by norm_num⟩ : 0 < 10003 ∧ (10003:ℕ) ≠ 10000)]
  simp only [List.replicate_succ, List.replicate_zero, correctionLoop]
  rw [rescaled_10003_1429]
  decide

/-- Normalization of nine equal initial shares: `[1111 eightfold, 1112]`. -/
theorem normFromInit_rep9 :
    normalizeFromInitial (List.replicate 9 1111) =
      [1111, 1111, 1111, 1111, 1111, 1111, 1111, 1111, 1112] := by
  have ht : initialTotal (List.replicate 9 1111) = 9999 := by decide
  simp only [normalizeFromInitial, ht]
  rw [if_pos (⟨by norm_num, by norm_num⟩ : 0 < 9999 ∧ (9999:ℕ) ≠ 10000)]
  simp only [List.replicate_succ, List.replicate_zero, correctionLoop]
  rw [rescaled_9999_1111]
  decide

/-- C4 counterexample: the claim states that for 2–10 items of identical value
every computed probability is within 1 basis point of `10000/n`.  For six
equal items the stored vector is `[1667 fivefold, 1665]` and the last entry is
`5/3` basis points away from `10000/6`, exceeding the claimed 1 basis point. -/
theorem C4_equal_values_counterexample :
    normalizeProbList (List.replicate 6 (1:ℚ)) =
      [1667, 1667, 1667, 1667, 1667, 1665] ∧
    ¬ |((1665:ℕ) : ℚ) - 10000 / 6| ≤ 1 := by
  constructor
  · unfold normalizeProbList
    rw [initialProb_six, normFromInit_rep6]
  · rw [abs_le]
    push_neg
    intro h
    exact absurd h (by norm_num)

/-- C4 amended: for `n` items (2 ≤ n ≤ 10) of identical value (hence identical
weight `w`), the stored vector consists of `n-1` equal entries, each within 1
basis point of `10000/n`, followed by one remainder-absorbing last entry
within 3 basis points of `10000/n` (the claimed 1 basis point fails for
n = 6 and n = 7), and the entries sum to exactly 10000: the whole rounding
discrepancy is concentrated in the last entry. -/
theorem C4_equal_values_amended (n : ℕ) (w : ℚ) (h2 : 2 ≤ n) (h10 : n ≤ 10)
    (hw : 0 < w) (hmin : f64MinPositive ≤ (List.replicate n w).sum) :
    ∃ c d : ℕ,
      normalizeProbList (List.replicate n w) =
        List.replicate (n - 1) c ++ [d] ∧
      |(c : ℚ) - 10000 / (n : ℚ)| ≤ 1 ∧
      |(d : ℚ) - 10000 / (n : ℚ)| ≤ 3 ∧
      (List.replicate (n - 1) c ++ [d]).sum = 10000 := by
  have hrep := initialProb_replicate n w hw hmin
  unfold normalizeProbList
  interval_cases n
  · refine ⟨5000, 5000, ?_, by rw [abs_le]; constructor <;> norm_num,
      by rw [abs_le]; constructor <;> norm_num, by decide⟩
    simp only [Nat.cast_ofNat] at hrep
    rw [hrep, round_10000_div_2]
    decide
  · refine ⟨3333, 3334, ?_, by rw [abs_le]; constructor <;> norm_num,
      by rw [abs_le]; constructor <;> norm_num, by decide⟩
    simp only [Nat.cast_ofNat] at hrep
    rw [hrep, round_10000_div_3, normFromInit_rep3]
    decide
  · refine ⟨2500, 2500, ?_, by rw [abs_le]; constructor <;> norm_num,
      by rw [abs_le]; constructor <;> norm_num, by decide⟩
    simp only [Nat.cast_ofNat] at hrep
    rw [hrep, round_10000_div_4]
    decide
  · refine ⟨2000, 2000, ?_, by rw [abs_le]; constructor <;> norm_num,
      by rw [abs_le]; constructor <;> norm_num, by decide⟩
    simp only [Nat.cast_ofNat] at hrep
    rw [hrep, round_10000_div_5]
    decide
  · refine ⟨1667, 1665, ?_, by rw [abs_le]; constructor <;> norm_num,
      by rw [abs_le]; constructor <;> norm_num, by decide⟩
    simp only [Nat.cast_ofNat] at hrep
    rw [hrep, round_10000_div_6, normFromInit_rep6]
    decide
  · refine ⟨1429, 1426, ?_, by rw [abs_le]; constructor <;> norm_num,
      by rw [abs_le]; constructor <;> norm_num, by decide⟩
    simp only [Nat.cast_ofNat] at hrep
    rw [hrep, round_10000_div_7, normFromInit_rep7]
    decide
  · refine ⟨1250, 1250, ?_, by rw [abs_le]; constructor <;> norm_num,
      by rw [abs_le]; constructor <;> norm_num, by decide⟩
    simp only [Nat.cast_ofNat] at hrep
    rw [hrep, round_10000_div_8]
    decide
  · refine ⟨1111, 1112, ?_, by rw [abs_le]; constructor <;> norm_num,
      by rw [abs_le]; constructor <;> norm_num, by decide⟩
    simp only [Nat.cast_ofNat] at hrep
    rw [hrep, round_10000_div_9, normFromInit_rep9]
    decide
  · refine ⟨1000, 1000, ?_, by rw [abs_le]; constructor <;> norm_num,
      by rw [abs_le]; constructor <;> norm_num, by decide⟩
    simp only [Nat.cast_ofNat] at hrep
    rw [hrep, round_10000_div_10]
    decide

/-- C4 witness: three unit weights give the amended shape with entries
`[3333, 3333, 3334]`. -/
theorem C4_equal_values_amended_witness :
    (2 ≤ 3 ∧ 3 ≤ 10 ∧ (0:ℚ) < 1 ∧
      f64MinPositive ≤ (List.replicate 3 (1:ℚ)).sum) ∧
    ∃ c d : ℕ,
      normalizeProbList (List.replicate 3 (1:ℚ)) =
        List.replicate (3 - 1) c ++ [d] ∧
      |(c : ℚ) - 10000 / ((3:ℕ) : ℚ)| ≤ 1 ∧
      |(d : ℚ) - 10000 / ((3:ℕ) : ℚ)| ≤ 3 ∧
      (List.replicate (3 - 1) c ++ [d]).sum = 10000 :=
  ⟨⟨by norm_num, by norm_num, by norm_num,
      by rw [List.sum_replicate, nsmul_eq_mul, f64MinPositive]; norm_num⟩,
   C4_equal_values_amended 3 1 (by norm_num) (by norm_num) (by norm_num)
     (by rw [List.sum_replicate, nsmul_eq_mul, f64MinPositive]; norm_num)⟩

/-- C6: for every non-empty item list, invoking the allocator entry point with
`ticket_price = 0` fails up front with `InvalidTicketPrice` (the spec's
`InvalidPriceError`): the `require!` precedes the probability computation, so
no probability vector is computed or returned. -/
theorem C6_zero_price_rejected (company_name company_image : String)
    (items : List PoolItemInput) (ws : List ℚ) (hne : items ≠ []) :
    initialize_company_pool 0 company_name company_image items ws =
      .error .InvalidTicketPrice := by
  unfold initialize_company_pool
  rw [if_pos (by norm_num)]

/-- C6 witness: a concrete one-item pool with zero ticket price is rejected. -/
theorem C6_zero_price_rejected_witness :
    (([⟨"", 5, "item", ""⟩] : List PoolItemInput) ≠ []) ∧
    initialize_company_pool 0 "pool" "img" [⟨"", 5, "item", ""⟩] [1] =
      .error .InvalidTicketPrice :=
  ⟨by simp, C6_zero_price_rejected "pool" "img" [⟨"", 5, "item", ""⟩] [1]
    (by simp)⟩

/-- C7: for an item found by name with stored probability 0 basis points, the
expected-spins figure is infinite (modelled as `none`) and
`get_profitability_analysis` returns no result; for positive stored
probability a finite analysis is returned, with
`expected_spins = 10000 / probability`. -/
theorem C7_profitability_boundary (c : WeightedProbabilityCalculator)
    (nm : String) (it : WeightedItem)
    (hfind : c.items.find? (fun x => x.name == nm) = some it) :
    (it.probability = 0 →
      get_expected_spins_for_item c nm = none ∧
      get_profitability_analysis c nm = none) ∧
    (0 < it.probability →
      ∃ a, get_profitability_analysis c nm = some a ∧
        a.expected_spins = 10000 / (it.probability : ℚ)) := by
  have hprob : get_probability_of_item c nm = (it.probability : ℚ) / 10000 := by
    unfold get_probability_of_item
    rw [hfind]
    rfl
  constructor
  · intro h0
    have hsp : get_expected_spins_for_item c nm = none := by
      unfold get_expected_spins_for_item
      rw [hprob, h0]
      norm_num
    refine ⟨hsp, ?_⟩
    unfold get_profitability_analysis
    rw [hfind, hsp]
  · intro hpos
    have hq : (0:ℚ) < (it.probability : ℚ) / 10000 :=
      div_pos (by exact_mod_cast hpos) (by norm_num)
    have hsp : get_expected_spins_for_item c nm =
        some (1 / ((it.probability : ℚ) / 10000)) := by
      unfold get_expected_spins_for_item
      rw [hprob, if_neg (not_le.mpr hq)]
    have han : get_profitability_analysis c nm = some
        ⟨nm, 1 / ((it.probability : ℚ) / 10000),
         1 / ((it.probability : ℚ) / 10000) * (c.ticket_price : ℚ), it.value,
         (it.value : ℚ) -
           1 / ((it.probability : ℚ) / 10000) * (c.ticket_price : ℚ),
         ((it.value : ℚ) -
             1 / ((it.probability : ℚ) / 10000) * (c.ticket_price : ℚ)) /
           max (1 / ((it.probability : ℚ) / 10000) * (c.ticket_price : ℚ))
             f64MinPositive⟩ := by
      unfold get_profitability_analysis
      rw [hfind, hsp]
    refine ⟨_, han, ?_⟩
    show (1 / ((it.probability : ℚ) / 10000)) = 10000 / (it.probability : ℚ)
    rw [one_div_div]

/-- C7 witness: a calculator holding one item of probability 0 and one of
probability 10000 exhibits both branches. -/
theorem C7_profitability_boundary_witness :
    ((⟨[⟨"A", 5, 1, 0⟩, ⟨"B", 2, 1, 10000⟩], 2, 2⟩ :
        WeightedProbabilityCalculator).items.find?
      (fun x => x.name == "A") = some ⟨"A", 5, 1, 0⟩) ∧
    ((⟨"A", 5, 1, 0⟩ : WeightedItem).probability = 0 →
      get_expected_spins_for_item
        ⟨[⟨"A", 5, 1, 0⟩, ⟨"B", 2, 1, 10000⟩], 2, 2⟩ "A" = none ∧
      get_profitability_analysis
        ⟨[⟨"A", 5, 1, 0⟩, ⟨"B", 2, 1, 10000⟩], 2, 2⟩ "A" = none) ∧
    (0 < (⟨"A", 5, 1, 0⟩ : WeightedItem).probability →
      ∃ a, get_profitability_analysis
          ⟨[⟨"A", 5, 1, 0⟩, ⟨"B", 2, 1, 10000⟩], 2, 2⟩ "A" = some a ∧
        a.expected_spins = 10000 / (((⟨"A", 5, 1, 0⟩ : WeightedItem)).probability : ℚ)) :=
  ⟨by rfl,
   (C7_profitability_boundary ⟨[⟨"A", 5, 1, 0⟩, ⟨"B", 2, 1, 10000⟩], 2, 2⟩
     "A" ⟨"A", 5, 1, 0⟩ (by rfl)).1,
   (C7_profitability_boundary ⟨[⟨"A", 5, 1, 0⟩, ⟨"B", 2, 1, 10000⟩], 2, 2⟩
     "A" ⟨"A", 5, 1, 0⟩ (by rfl)).2⟩

/-- C8: a successful `record_spin_result` leaves the pool account — in
particular its items with their names, prices, stored probabilities and
availability flags — completely unchanged, and writes only the ticket's
`used` and `won_item` fields; a failed call aborts the transaction with no
state committed (the `Except.error` result carries no post-state), and the
selection function itself is a pure function of its arguments. -/
theorem C8_spin_frame (pool : CompanyPool) (pool_key : ℕ) (ticket : UserTicket)
    (spinner vault_lamports clock_ts clock_slot : ℕ)
    (p : CompanyPool) (t : UserTicket)
    (h : record_spin_result pool pool_key ticket spinner vault_lamports
      clock_ts clock_slot = .ok (p, t)) :
    p = pool ∧ t.used = true ∧ (∃ w, t.won_item = some w) ∧
    t.owner = ticket.owner ∧ t.company_pool = ticket.company_pool ∧
    t.purchased_at = ticket.purchased_at ∧ t.ticket_id = ticket.ticket_id ∧
    t.reward_claimed = ticket.reward_claimed := by
  simp only [record_spin_result] at h
  split_ifs at h
  split at h
  · cases h
  · split at h
    · cases h
    · simp only [Except.ok.injEq, Prod.mk.injEq] at h
      obtain ⟨hp, ht⟩ := h
      subst hp
      subst ht
      exact ⟨rfl, rfl, ⟨_, rfl⟩, rfl, rfl, rfl, rfl, rfl⟩

/-- C8 witness: a concrete successful spin; the pool comes back unchanged and
only the ticket's `used`/`won_item` fields are written. -/
theorem C8_spin_frame_witness :
    (record_spin_result
        ⟨0, "p", "i", 1, [⟨"img", 5, "itm", "d", 10000, true⟩], 5, 0, 0, true, 0⟩
        3 ⟨7, 3, 0, false, 0, none, false⟩ 7 0 0 0 =
      .ok (⟨0, "p", "i", 1, [⟨"img", 5, "itm", "d", 10000, true⟩], 5, 0, 0, true, 0⟩,
           ⟨7, 3, 0, true, 0, some ⟨"itm", 5, "img", "d", 0⟩, false⟩)) ∧
    ((⟨7, 3, 0, true, 0, some ⟨"itm", 5, "img", "d", 0⟩, false⟩ :
        UserTicket) =
      ⟨7, 3, 0, true, 0, some ⟨"itm", 5, "img", "d", 0⟩, false⟩ ∧
    (⟨7, 3, 0, true, 0, some ⟨"itm", 5, "img", "d", 0⟩, false⟩ :
        UserTicket).used = true ∧
    (∃ w, (⟨7, 3, 0, true, 0, some ⟨"itm", 5, "img", "d", 0⟩, false⟩ :
        UserTicket).won_item = some w) ∧
    (⟨7, 3, 0, true, 0, some ⟨"itm", 5, "img", "d", 0⟩, false⟩ :
        UserTicket).owner = (⟨7, 3, 0, false, 0, none, false⟩ : UserTicket).owner ∧
    (⟨7, 3, 0, true, 0, some ⟨"itm", 5, "img", "d", 0⟩, false⟩ :
        UserTicket).company_pool =
      (⟨7, 3, 0, false, 0, none, false⟩ : UserTicket).company_pool ∧
    (⟨7, 3, 0, true, 0, some ⟨"itm", 5, "img", "d", 0⟩, false⟩ :
        UserTicket).purchased_at =
      (⟨7, 3, 0, false, 0, none, false⟩ : UserTicket).purchased_at ∧
    (⟨7, 3, 0, true, 0, some ⟨"itm", 5, "img", "d", 0⟩, false⟩ :
        UserTicket).ticket_id =
      (⟨7, 3, 0, false, 0, none, false⟩ : UserTicket).ticket_id ∧
    (⟨7, 3, 0, true, 0, some ⟨"itm", 5, "img", "d", 0⟩, false⟩ :
        UserTicket).reward_claimed =
      (⟨7, 3, 0, false, 0, none, false⟩ : UserTicket).reward_claimed) := by
  have hok : record_spin_result
      ⟨0, "p", "i", 1, [⟨"img", 5, "itm", "d", 10000, true⟩], 5, 0, 0, true, 0⟩
      3 ⟨7, 3, 0, false, 0, none, false⟩ 7 0 0 0 =
      .ok (⟨0, "p", "i", 1, [⟨"img", 5, "itm", "d", 10000, true⟩], 5, 0, 0,
             true, 0⟩,
           ⟨7, 3, 0, true, 0, some ⟨"itm", 5, "img", "d", 0⟩, false⟩) := by
    decide
  have hframe := C8_spin_frame
    ⟨0, "p", "i", 1, [⟨"img", 5, "itm", "d", 10000, true⟩], 5, 0, 0, true, 0⟩
    3 ⟨7, 3, 0, false, 0, none, false⟩ 7 0 0 0
    ⟨0, "p", "i", 1, [⟨"img", 5, "itm", "d", 10000, true⟩], 5, 0, 0, true, 0⟩
    ⟨7, 3, 0, true, 0, some ⟨"itm", 5, "img", "d", 0⟩, false⟩ hok
  exact ⟨hok, rfl, hframe.2.1, hframe.2.2.1, hframe.2.2.2.1, hframe.2.2.2.2.1,
    hframe.2.2.2.2.2.1, hframe.2.2.2.2.2.2.1, hframe.2.2.2.2.2.2.2⟩

/-- C10: a successful `claim_reward` updates the pool's recorded `total_funds`
with a saturating subtraction of the won item's price: the result is
`total_funds - reward` when the reward does not exceed the recorded funds and
`0` otherwise; the update itself can neither underflow nor abort. -/
theorem C10_claim_reward_saturates (pool : CompanyPool) (pool_key : ℕ)
    (ticket : UserTicket) (spinner vault_lamports rent_exempt_minimum : ℕ)
    (w : WonItem) (hw : ticket.won_item = some w)
    (p : CompanyPool) (t : UserTicket)
    (h : claim_reward pool pool_key ticket spinner vault_lamports
      rent_exempt_minimum = .ok (p, t)) :
    p.total_funds =
      (if w.price ≤ pool.total_funds then pool.total_funds - w.price else 0) ∧
    t.reward_claimed = true := by
  simp only [claim_reward] at h
  split_ifs at h <;> try exact Except.noConfusion h
  split at h
  · rename_i heq
    rw [hw] at heq
    cases heq
  · rename_i won hwon
    rw [hw] at hwon
    injection hwon with hww
    subst hww
    split_ifs at h <;> try exact Except.noConfusion h
    simp only [Except.ok.injEq, Prod.mk.injEq] at h
    obtain ⟨hp, ht⟩ := h
    subst hp
    subst ht
    refine ⟨?_, rfl⟩
    show pool.total_funds - w.price = _
    split_ifs with hle
    · rfl
    · omega

/-- C10 witness: a concrete claim with reward 3 against recorded funds 5
leaves funds 2; the saturating branch is exercised by the theorem's `if`. -/
theorem C10_claim_reward_saturates_witness :
    ((⟨7, 3, 0, true, 0, some ⟨"itm", 3, "img", "d", 0⟩, false⟩ :
        UserTicket).won_item = some ⟨"itm", 3, "img", "d", 0⟩) ∧
    (claim_reward ⟨0, "p", "i", 1, [], 5, 0, 5, true, 0⟩ 3
        ⟨7, 3, 0, true, 0, some ⟨"itm", 3, "img", "d", 0⟩, false⟩ 7 10 2 =
      .ok (⟨0, "p", "i", 1, [], 5, 0, 2, true, 0⟩,
           ⟨7, 3, 0, true, 0, some ⟨"itm", 3, "img", "d", 0⟩, true⟩)) ∧
    (⟨0, "p", "i", 1, [], 5, 0, 2, true, 0⟩ : CompanyPool).total_funds =
      (if (⟨"itm", 3, "img", "d", 0⟩ : WonItem).price ≤
          (⟨0, "p", "i", 1, [], 5, 0, 5, true, 0⟩ : CompanyPool).total_funds
        then (⟨0, "p", "i", 1, [], 5, 0, 5, true, 0⟩ :
            CompanyPool).total_funds - (⟨"itm", 3, "img", "d", 0⟩ : WonItem).price
        else 0) := by
  have hok : claim_reward ⟨0, "p", "i", 1, [], 5, 0, 5, true, 0⟩ 3
      ⟨7, 3, 0, true, 0, some ⟨"itm", 3, "img", "d", 0⟩, false⟩ 7 10 2 =
      .ok (⟨0, "p", "i", 1, [], 5, 0, 2, true, 0⟩,
           ⟨7, 3, 0, true, 0, some ⟨"itm", 3, "img", "d", 0⟩, true⟩) := by
    decide
  exact ⟨rfl, hok,
    (C10_claim_reward_saturates _ 3 _ 7 10 2 ⟨"itm", 3, "img", "d", 0⟩ rfl _ _
      hok).1⟩
